import Mathlib

/-!
Verification of the tiny-addition transformer search
(`experiments/tiny_addition/run_search.py`, `experiments/tiny_addition_search.py`,
`research/addition_tiny/search_tiny_transformer.py`).

The Python source is shallowly embedded: token ids are natural numbers
(`TOKENS = ["<bos>", "+", "=", "<eos>"] + digits`, so `<bos>` = 0, `+` = 1,
`=` = 2, `<eos>` = 3 and digit `d` = 4 + d), tensors over positions are lists
or functions out of `Fin n`, float arithmetic of the model is embedded as real
arithmetic, and the float 0/1 supervision masks are rationals.
-/

namespace TinyAddition

/-! ## Tokenizer / codec (`run_search.py`, `encode_example` / `validate_dataset`) -/

/-- The digit string `f"{n:0{w}d}"[::-1]`: `w` decimal digits of `n`,
least-significant first (position `i` holds `n / 10^i % 10`). -/
def digitsLE : ℕ → ℕ → List ℕ
  | 0, _ => []
  | w + 1, n => n % 10 :: digitsLE w (n / 10)

/-- `encode_example(a, b)` from `run_search.py`: the id sequence of
`["<bos>"] + list(a_str) + ["+"] + list(b_str) + ["="] + list(c_str) + ["<eos>"]`,
where `a_str`/`b_str` are the reversed 10-digit renderings of `a`/`b` and
`c_str` the reversed 11-digit rendering of `c = a + b`.  Digit `d` has id `4 + d`. -/
def encode_example (a b : ℕ) : List ℕ :=
  [0] ++ (digitsLE 10 a).map (fun d => 4 + d) ++ [1] ++ (digitsLE 10 b).map (fun d => 4 + d)
    ++ [2] ++ (digitsLE 11 (a + b)).map (fun d => 4 + d) ++ [3]

/-- `int(s[::-1])` for a least-significant-first digit list: positional value
`Σ ds[i] * 10^i`. -/
def valLE : List ℕ → ℕ
  | [] => 0
  | d :: ds => d + 10 * valLE ds

/-- The decoding performed by `validate_dataset`: slice out `toks[1:11]`,
`toks[12:22]`, `toks[23:34]`, map ids back to digits (`ITOS`, id 4 + d ↦ d),
reverse and parse each region. -/
def decode (ids : List ℕ) : ℕ × ℕ × ℕ :=
  (valLE (((ids.drop 1).take 10).map (fun t => t - 4)),
   valLE (((ids.drop 12).take 10).map (fun t => t - 4)),
   valLE (((ids.drop 23).take 11).map (fun t => t - 4)))

theorem digitsLE_length (w n : ℕ) : (digitsLE w n).length = w := by
  induction w generalizing n with
  | zero => rfl
  | succ w ih => simp [digitsLE, ih]

theorem valLE_digitsLE (w n : ℕ) : valLE (digitsLE w n) = n % 10 ^ w := by
  induction w generalizing n with
  | zero => simp [digitsLE, valLE, Nat.mod_one]
  | succ w ih =>
      rw [digitsLE, valLE, ih]
      have h1 : n % 10 < 10 := Nat.mod_lt _ (by norm_num)
      have h2 : n / 10 % 10 ^ w < 10 ^ w := Nat.mod_lt _ (Nat.pos_pow_of_pos w (by norm_num))
      have hlt : n % 10 + 10 * (n / 10 % 10 ^ w) < 10 ^ (w + 1) := by
        rw [pow_succ]; omega
      have hrepr : n = 10 ^ (w + 1) * (n / 10 / 10 ^ w) + (n % 10 + 10 * (n / 10 % 10 ^ w)) := by
        have hq : 10 ^ w * (n / 10 / 10 ^ w) + n / 10 % 10 ^ w = n / 10 :=
          Nat.div_add_mod (n / 10) (10 ^ w)
        have hn : 10 * (n / 10) + n % 10 = n := Nat.div_add_mod n 10
        have hp : 10 ^ (w + 1) * (n / 10 / 10 ^ w) = 10 * (10 ^ w * (n / 10 / 10 ^ w)) := by
          ring
        omega
      calc n % 10 + 10 * (n / 10 % 10 ^ w)
          = (10 ^ (w + 1) * (n / 10 / 10 ^ w) + (n % 10 + 10 * (n / 10 % 10 ^ w)))
              % 10 ^ (w + 1) := by rw [Nat.mul_add_mod, Nat.mod_eq_of_lt hlt]
        _ = n % 10 ^ (w + 1) := by rw [← hrepr]

theorem map_sub_map_add (l : List ℕ) :
    (l.map (fun d => 4 + d)).map (fun t => t - 4) = l := by
  rw [List.map_map]
  apply List.map_id''
  intro x
  simp [Function.comp]

theorem encode_example_eq (a b : ℕ) :
    encode_example a b =
      0 :: ((digitsLE 10 a).map (fun d => 4 + d) ++ 1 ::
        ((digitsLE 10 b).map (fun d => 4 + d) ++ 2 ::
          ((digitsLE 11 (a + b)).map (fun d => 4 + d) ++ [3]))) := by
  simp [encode_example]

theorem decode_encode_slices (a b : ℕ) :
    decode (encode_example a b) =
      (valLE (digitsLE 10 a), valLE (digitsLE 10 b), valLE (digitsLE 11 (a + b))) := by
  have hA : ((digitsLE 10 a).map (fun d => 4 + d)).length = 10 := by
    simp [digitsLE_length]
  have hB : ((digitsLE 10 b).map (fun d => 4 + d)).length = 10 := by
    simp [digitsLE_length]
  have hC : ((digitsLE 11 (a + b)).map (fun d => 4 + d)).length = 11 := by
    simp [digitsLE_length]
  rw [encode_example_eq]
  unfold decode
  refine congrArg₂ Prod.mk ?_ (congrArg₂ Prod.mk ?_ ?_)
  · rw [show (1 : ℕ) = 0 + 1 from rfl, List.drop_succ_cons, List.drop_zero,
        List.take_left' hA, map_sub_map_add]
  · rw [show (12 : ℕ) = 11 + 1 from rfl, List.drop_succ_cons,
        show (11 : ℕ) = 10 + 1 from rfl, ← List.drop_drop, List.drop_left' hA,
        show (1 : ℕ) = 0 + 1 from rfl, List.drop_succ_cons, List.drop_zero,
        List.take_left' hB, map_sub_map_add]
  · rw [show (23 : ℕ) = 22 + 1 from rfl, List.drop_succ_cons,
        show (22 : ℕ) = 10 + 12 from rfl, ← List.drop_drop, List.drop_left' hA,
        show (12 : ℕ) = 11 + 1 from rfl, List.drop_succ_cons,
        show (11 : ℕ) = 10 + 1 from rfl, ← List.drop_drop, List.drop_left' hB,
        show (1 : ℕ) = 0 + 1 from rfl, List.drop_succ_cons, List.drop_zero,
        List.take_left' hC, map_sub_map_add]

/-- C1: decoding the token sequence produced by `encode_example(a, b)` —
slicing the operand and result regions, reversing digit order and parsing —
recovers exactly `a`, `b` and `a + b`, for all operands below `10^10`. -/
theorem decode_encode_example (a b : ℕ) (ha : a < 10 ^ 10) (hb : b < 10 ^ 10) :
    decode (encode_example a b) = (a, b, a + b) := by
  rw [decode_encode_slices, valLE_digitsLE, valLE_digitsLE, valLE_digitsLE,
      Nat.mod_eq_of_lt ha, Nat.mod_eq_of_lt hb,
      Nat.mod_eq_of_lt (show a + b < 10 ^ 11 by norm_num at ha hb ⊢; omega)]

/-- Witness for C1 at the concrete operands a = 1, b = 2 (the spec's
end-to-end codec scenario: the result region decodes to 3). -/
theorem decode_encode_example_witness :
    1 < 10 ^ 10 ∧ 2 < 10 ^ 10 ∧ decode (encode_example 1 2) = (1, 2, 3) :=
  ⟨by norm_num, by norm_num, decode_encode_example 1 2 (by norm_num) (by norm_num)⟩

/-! ## Parameter accounting (`run_search.py`, `TinyTransformer.__init__` / `count_params`) -/

/-- `count_params(TinyTransformer(d, f))`: direct enumeration of the element
counts of every trainable tensor of `TinyTransformer.__init__` in
`run_search.py`, in declaration order: `tok_emb` (`VOCAB * d` with
`VOCAB = 14`), `ln1` (weight + bias), the four `Linear(d, d)` layers
`q`, `k`, `v`, `proj` (weight `d*d` + bias `d` each), `ln2`, `fc1`
(`Linear(d, f)`), `fc2` (`Linear(f, d)`) and `ln_f`.  The output projection is
`tok_emb.weight.T`, so tying adds no tensor. -/
def count_params (d f : ℕ) : ℕ :=
  14 * d + (d + d) + ((d * d + d) + (d * d + d) + (d * d + d) + (d * d + d))
    + (d + d) + (d * f + f) + (f * d + d) + (d + d)

/-- C2: for every embedding width `d ≥ 1` and feed-forward width `f ≥ 1`, the
directly enumerated parameter count of the single-block tied-embedding model
equals the closed-form polynomial `4d² + 2df + 25d + f`, and at `d = 4`,
`f = 8` the count is 236. -/
theorem count_params_closed_form (d f : ℕ) (hd : 1 ≤ d) (hf : 1 ≤ f) :
    count_params d f = 4 * d ^ 2 + 2 * d * f + 25 * d + f ∧ count_params 4 8 = 236 := by
  constructor
  · unfold count_params; ring
  · rfl

/-- Witness for C2 at the spec's end-to-end scenario `d = 4`, `f = 8`. -/
theorem count_params_closed_form_witness :
    1 ≤ 4 ∧ 1 ≤ 8 ∧
      (count_params 4 8 = 4 * 4 ^ 2 + 2 * 4 * 8 + 25 * 4 + 8 ∧ count_params 4 8 = 236) :=
  ⟨by norm_num, by norm_num, count_params_closed_form 4 8 (by norm_num) (by norm_num)⟩

/-! ## Search selection (`run_search.py` `main`, `tiny_addition_search.py` `main`) -/

/-- The per-attempt summary record consumed by the selection step of
`run_search.py` `main`: parameter count and best validation sequence accuracy
(a float, embedded as a rational). -/
structure Summary where
  params : ℕ
  best_val_seq_acc : ℚ
deriving DecidableEq

/-- The `AttemptResult` record of `tiny_addition_search.py` (the fields its
selection step reads). -/
structure AttemptR where
  params : ℕ
  val_seq_acc : ℚ
deriving DecidableEq

/-- Python's `max(xs, key=key)`: left fold keeping the current maximum, so the
first of several key-maximal elements is returned; `none` on `[]` (where
CPython raises).  `run_search.py` line 225:
`best = max(summaries, key=lambda x: x["best_val_seq_acc"])`. -/
def pyMaxBy (key : α → ℚ) : List α → Option α
  | [] => none
  | x :: xs => some (xs.foldl (fun acc y => if key acc < key y then y else acc) x)

/-- Stable insertion: `x` is placed before the first element `y` with
`le x y = true`. -/
def insertSorted (le : α → α → Bool) (x : α) : List α → List α
  | [] => [x]
  | y :: ys => if le x y then x :: y :: ys else y :: insertSorted le x ys

/-- Stable sort (the semantics of Python `list.sort`): elements are inserted
back to front, so key-equal elements keep their original relative order. -/
def stableSortBy (le : α → α → Bool) : List α → List α
  | [] => []
  | x :: xs => insertSorted le x (stableSortBy le xs)

/-- The sort key of `tiny_addition_search.py` line 239,
`valid.sort(key=lambda r: (-r.val_seq_acc, r.params))`: lexicographic order on
the tuples `(-val_seq_acc, params)`. -/
def sortKeyLe (a b : AttemptR) : Bool :=
  decide (-a.val_seq_acc < -b.val_seq_acc) ||
    (decide (-a.val_seq_acc = -b.val_seq_acc) && decide (a.params ≤ b.params))

/-- `tiny_addition_search.py` lines 238–240:
`valid = [r for r in results if r.params < 491]`,
`valid.sort(key=lambda r: (-r.val_seq_acc, r.params))`, `selected = valid[0]`. -/
def selectUnder491 (results : List AttemptR) : Option AttemptR :=
  (stableSortBy sortKeyLe (results.filter (fun r => r.params < 491))).head?

/-- The spec's search-selection scenario, as `run_search.py` summaries. -/
def scnList : List Summary := [⟨200, 8/10⟩, ⟨300, 999/1000⟩, ⟨450, 1⟩]

/-- The spec's search-selection scenario, as `tiny_addition_search.py`
attempt results. -/
def scnListR : List AttemptR := [⟨200, 8/10⟩, ⟨300, 999/1000⟩, ⟨450, 1⟩]

/-- C3 counterexample: on the three attempts (200 params, acc 0.80),
(300, 0.999), (450, 1.0), neither implemented selector returns the
300-parameter attempt that the claim requires: `run_search.py` takes the
`max` by best validation sequence accuracy and `tiny_addition_search.py`
sorts by (descending accuracy, ascending params) — both select the
450-parameter attempt. -/
theorem pyMaxBy_scn : pyMaxBy Summary.best_val_seq_acc scnList = some ⟨450, 1⟩ := by
  norm_num [pyMaxBy, scnList, List.foldl]

theorem selectUnder491_scn : selectUnder491 scnListR = some ⟨450, 1⟩ := by
  norm_num [selectUnder491, scnListR, stableSortBy, insertSorted, sortKeyLe,
    List.filter_cons, List.head?]

theorem selection_not_min_params_over_threshold :
    pyMaxBy Summary.best_val_seq_acc scnList ≠ some ⟨300, 999/1000⟩ ∧
      selectUnder491 scnListR ≠ some ⟨300, 999/1000⟩ ∧
      pyMaxBy Summary.best_val_seq_acc scnList = some ⟨450, 1⟩ ∧
      selectUnder491 scnListR = some ⟨450, 1⟩ := by
  refine ⟨?_, ?_, pyMaxBy_scn, selectUnder491_scn⟩
  · rw [pyMaxBy_scn]; simp
  · rw [selectUnder491_scn]; simp

/-- C3 amended: the search selects the attempt with the highest best
validation sequence accuracy (first such in `run_search.py`; fewest
parameters among accuracy-ties, after discarding attempts with ≥ 491
parameters, in `tiny_addition_search.py`); on the scenario's three attempts
both selectors return the 450-parameter attempt with accuracy 1.0, which is
accuracy-maximal. -/
theorem selection_highest_accuracy :
    pyMaxBy Summary.best_val_seq_acc scnList = some ⟨450, 1⟩ ∧
      selectUnder491 scnListR = some ⟨450, 1⟩ ∧
      ∀ s ∈ scnList, s.best_val_seq_acc ≤ (1 : ℚ) := by
  refine ⟨pyMaxBy_scn, selectUnder491_scn, ?_⟩
  intro s hs
  simp only [scnList, List.mem_cons, List.not_mem_nil, or_false] at hs
  rcases hs with rfl | rfl | rfl <;> norm_num

/-! ## Early stopping (`run_search.py`, `train_attempt` epoch loop) -/

/-- The epoch loop of `train_attempt`:
`for epoch in range(1, attempt.epochs + 1)` whose body ends with
`if val_seq >= 0.999 and epoch >= 3: break`.  `valSeq e` is the validation
sequence accuracy measured during epoch `e` (the training steps inside the
body do not affect the loop shape and are abstracted); the value is the list
of epoch indices that actually run, in order.  First argument: remaining
budget; second: next epoch index. -/
def epochLoop (valSeq : ℕ → ℚ) : ℕ → ℕ → List ℕ
  | 0, _ => []
  | rem + 1, e =>
      e :: (if 999 / 1000 ≤ valSeq e ∧ 3 ≤ e then [] else epochLoop valSeq rem (e + 1))

/-- The epochs run by `train_attempt` under an epoch budget of `epochs`. -/
def epochsRun (epochs : ℕ) (valSeq : ℕ → ℚ) : List ℕ :=
  epochLoop valSeq epochs 1

theorem epochLoop_mem_ge (valSeq : ℕ → ℚ) :
    ∀ rem s e, e ∈ epochLoop valSeq rem s → s ≤ e := by
  intro rem
  induction rem with
  | zero => intro s e h; simp [epochLoop] at h
  | succ rem ih =>
      intro s e h
      rw [epochLoop] at h
      rcases List.mem_cons.mp h with h | h
      · omega
      · split at h
        · simp at h
        · have := ih (s + 1) e h
          omega

theorem epochLoop_no_epoch_after_stop (valSeq : ℕ → ℚ) :
    ∀ rem s e e', e ∈ epochLoop valSeq rem s → 3 ≤ e → 999 / 1000 ≤ valSeq e →
      e' ∈ epochLoop valSeq rem s → e' ≤ e := by
  intro rem
  induction rem with
  | zero => intro s e e' he _ _ _; simp [epochLoop] at he
  | succ rem ih =>
      intro s e e' he h3 hacc he'
      rw [epochLoop] at he he'
      by_cases hstop : 999 / 1000 ≤ valSeq s ∧ 3 ≤ s
      · rw [if_pos hstop] at he he'
        simp at he he'
        omega
      · rw [if_neg hstop] at he he'
        rcases List.mem_cons.mp he with rfl | he
        · exact absurd ⟨hacc, h3⟩ hstop
        · rcases List.mem_cons.mp he' with rfl | he'
          · have := epochLoop_mem_ge valSeq rem (e' + 1) e he
            omega
          · exact ih (s + 1) e e' he h3 hacc he'

/-- C7: the epoch loop of `train_attempt` runs no further epoch after an epoch
`e ≥ 3` whose measured validation sequence accuracy is at least 0.999 — every
epoch that runs is ≤ such an `e`. -/
theorem early_stop_after_threshold (epochs : ℕ) (valSeq : ℕ → ℚ) (e e' : ℕ)
    (he : e ∈ epochsRun epochs valSeq) (h3 : 3 ≤ e)
    (hacc : 999 / 1000 ≤ valSeq e) (he' : e' ∈ epochsRun epochs valSeq) :
    e' ≤ e :=
  epochLoop_no_epoch_after_stop valSeq epochs 1 e e' he h3 hacc he'

/-- Accuracy trajectory used in the C7 witness: perfect accuracy throughout. -/
def constAcc : ℕ → ℚ := fun _ => 1

theorem epochsRun_constAcc : epochsRun 12 constAcc = [1, 2, 3] := by
  norm_num [epochsRun, epochLoop, constAcc]

/-- Witness for C7: with a budget of 12 epochs and accuracy 1 throughout,
only epochs 1, 2, 3 run, and every run epoch is ≤ 3. -/
theorem early_stop_after_threshold_witness :
    3 ∈ epochsRun 12 constAcc ∧ 3 ≤ 3 ∧ 999 / 1000 ≤ constAcc 3 ∧
      2 ∈ epochsRun 12 constAcc ∧ 2 ≤ 3 :=
  ⟨by rw [epochsRun_constAcc]; norm_num, by norm_num, by norm_num [constAcc],
    by rw [epochsRun_constAcc]; norm_num,
    early_stop_after_threshold 12 constAcc 3 2 (by rw [epochsRun_constAcc]; norm_num)
      (by norm_num) (by norm_num [constAcc]) (by rw [epochsRun_constAcc]; norm_num)⟩

/-! ## Parameter budget (`research/addition_tiny/search_tiny_transformer.py`) -/

/-- Trainable-parameter count of the column model `M(d)` of
`research/addition_tiny/search_tiny_transformer.py`: `te` (13·d tokens), `pe`
(4·d), `ln1` (weight + bias), single-head `MultiheadAttention`
(`in_proj` 3d² + 3d, `out_proj` d² + d), `ln2`, digit head `Linear(d, 10)` and
carry head `Linear(d, 2)`. -/
def params_M (d : ℕ) : ℕ :=
  13 * d + 4 * d + (d + d) + ((3 * d * d + 3 * d) + (d * d + d)) + (d + d)
    + (10 * d + 10) + (2 * d + 2)

/-- One attempt row `A(name, d, lr, steps)` of the column-search script (the
learning rate, a float, is embedded as a rational). -/
structure ColAttempt where
  name : String
  d : ℕ
  lr : ℚ
  steps : ℕ

/-- The main loop of `research/addition_tiny/search_tiny_transformer.py`:
`for a in attempts: m = M(a.d); p = params(m); if p >= 491: continue;
<Adam training loop>; results.append(record)`.  Training, evaluation and the
appended record are abstracted into `train`; the loop otherwise only
filters. -/
def searchLoop (train : ColAttempt → ρ) : List ColAttempt → List ρ
  | [] => []
  | a :: rest =>
      if 491 ≤ params_M a.d then searchLoop train rest
      else train a :: searchLoop train rest

/-- C8: a configuration whose parameter count meets or exceeds the hard budget
of 491 is skipped before any training happens: the search results are exactly
the under-budget attempts, each trained — `train` is never applied to an
over-budget attempt, and the loop continues past a skipped attempt and
produces a normal result list (no error value). -/
theorem budget_skip_is_pre_training_filter (train : ColAttempt → ρ)
    (attempts : List ColAttempt) :
    searchLoop train attempts =
      (attempts.filter (fun a => params_M a.d < 491)).map train := by
  induction attempts with
  | nil => rfl
  | cons a rest ih =>
      rw [searchLoop, List.filter_cons]
      by_cases h : 491 ≤ params_M a.d
      · rw [if_pos h, if_neg (by simp; omega), ih]
      · rw [if_neg h, if_pos (by simp; omega), List.map_cons, ih]

/-- One configuration dict of the `attempts` list in
`tiny_addition_search.py` `main`: `{"d_model": …, "d_ff": …, "n_layers": …}`. -/
structure TASConfig where
  d_model : ℕ
  d_ff : ℕ
  n_layers : ℕ
deriving DecidableEq

/-- `param_count(TinyAdditionTransformer(d, ff, layers))` of
`tiny_addition_search.py`: `token_embed` (`VOCAB_SIZE = 12` rows),
`pos_embed` (`SEQ_LEN = 32` rows), per block `ln1` (2·d), the single-head
`MultiheadAttention` (`in_proj` 3d² + 3d, `out_proj` d² + d), `ln2`,
`ff1 : Linear(d, ff)`, `ff2 : Linear(ff, d)`, then `final_ln` and the digit
`head : Linear(d, 10)`. -/
def paramsTA (d ff layers : ℕ) : ℕ :=
  12 * d + 32 * d
    + layers * ((d + d) + ((3 * d * d + 3 * d) + (d * d + d)) + (d + d)
        + (d * ff + ff) + (ff * d + d))
    + (d + d) + (10 * d + 10)

/-- The attempt loop of `tiny_addition_search.py` `main` (lines 232–236):
`for cfg in attempts: result = run_attempt(cfg, steps=120, …);
results.append(result)`.  `run_attempt` unconditionally constructs the model
and runs its full training loop before evaluating — its optimization steps
and final accuracy are abstracted into `runAcc` — and returns the
`AttemptResult` holding the model's true parameter count.  Every
configuration in `attempts` is passed to `run_attempt`; none is skipped:
each entry of the result list is the product of one training run. -/
def tasResults (runAcc : TASConfig → ℚ) (attempts : List TASConfig) : List AttemptR :=
  attempts.map (fun c => ⟨paramsTA c.d_model c.d_ff c.n_layers, runAcc c⟩)

/-- Line 238 of `tiny_addition_search.py`,
`valid = [r for r in results if r.params < 491]`: the only place the 491
budget appears, applied to the finished (already trained) results. -/
def tasValid (runAcc : TASConfig → ℚ) (attempts : List TASConfig) : List AttemptR :=
  (tasResults runAcc attempts).filter (fun r => r.params < 491)

/-- C8 counterexample: in `tiny_addition_search.py` the 491 budget is not a
pre-training filter.  `main` passes every configuration to `run_attempt`
(which trains it) and applies `params < 491` only to the finished results:
for the single configuration `d_model = 8`, `d_ff = 8`, one layer — 922 ≥ 491
parameters — the attempt loop still produces its trained result (the
over-budget configuration is trained, not skipped before training), and the
budget only empties the post-training selection list. -/
theorem budget_post_hoc_in_tiny_addition_search :
    491 ≤ paramsTA 8 8 1 ∧
      tasResults (fun _ => 0) [⟨8, 8, 1⟩] = [⟨paramsTA 8 8 1, 0⟩] ∧
      tasResults (fun _ => 0) [⟨8, 8, 1⟩] ≠ [] ∧
      tasValid (fun _ => 0) [⟨8, 8, 1⟩] = [] := by
  refine ⟨by decide, by decide, by decide, by decide⟩

/-! ## Dataset generation (`run_search.py`, `build_dataset` / `main`) -/

/-- The rejection-sampling loop of `build_dataset(n, rng)`: the seeded rng is
modelled as the draw stream `draws`; `pairs` is the accumulator (the `seen`
set always holds exactly the elements of `pairs`, so membership is tested on
`pairs`).  The Python `while len(pairs) < n` can draw forever; with a finite
draw stream the loop also ends when the stream is exhausted. -/
def buildLoop (n : ℕ) : List (ℕ × ℕ) → List (ℕ × ℕ) → List (ℕ × ℕ)
  | [], pairs => pairs
  | p :: draws, pairs =>
      if n ≤ pairs.length then pairs
      else if p ∈ pairs then buildLoop n draws pairs
      else buildLoop n draws (pairs ++ [p])

/-- `build_dataset(n, rng)` with draw stream `draws`. -/
def build_dataset (n : ℕ) (draws : List (ℕ × ℕ)) : List (ℕ × ℕ) :=
  buildLoop n draws []

/-- `set(train_pairs).isdisjoint(set(val_pairs))`: no common pair. -/
def pyIsdisjoint (s t : List (ℕ × ℕ)) : Bool :=
  s.all fun p => decide (p ∉ t)

/-- `validate_dataset(samples)` of `run_search.py`: for the first 2000 samples
the encode/decode round trip must reproduce `(a, b, a + b)` (an `assert`,
aborting on failure). -/
def validate_dataset (samples : List (ℕ × ℕ)) : Bool :=
  (samples.take 2000).all fun p =>
    decide (decode (encode_example p.1 p.2) = (p.1, p.2, p.1 + p.2))

/-- Dataset preparation in `main` (`run_search.py` lines 199–209): build the
40000-pair train set and the 4000-pair validation set, then run the dataset
checks — `assert set(train_pairs).isdisjoint(set(val_pairs))` and
`validate_dataset` on both — before any attempt is trained.  A failing
`assert` aborts the run, modelled as `none`; training only ever consumes a
`some` result. -/
def prepare_datasets (trainDraws valDraws : List (ℕ × ℕ)) :
    Option (List (ℕ × ℕ) × List (ℕ × ℕ)) :=
  if pyIsdisjoint (build_dataset 40000 trainDraws) (build_dataset 4000 valDraws)
      && validate_dataset (build_dataset 40000 trainDraws)
      && validate_dataset (build_dataset 4000 valDraws)
  then some (build_dataset 40000 trainDraws, build_dataset 4000 valDraws)
  else none

theorem buildLoop_nodup (n : ℕ) :
    ∀ draws pairs, pairs.Nodup → (buildLoop n draws pairs).Nodup := by
  intro draws
  induction draws with
  | nil => intro pairs h; exact h
  | cons p draws ih =>
      intro pairs h
      rw [buildLoop]
      by_cases h1 : n ≤ pairs.length
      · rw [if_pos h1]; exact h
      · rw [if_neg h1]
        by_cases h2 : p ∈ pairs
        · rw [if_pos h2]; exact ih pairs h
        · rw [if_neg h2]
          refine ih _ ?_
          simp [List.nodup_append, h, h2]

theorem buildLoop_length (n : ℕ) :
    ∀ draws pairs, pairs.Nodup → pairs.length ≤ n →
      n ≤ (pairs ++ draws).toFinset.card → (buildLoop n draws pairs).length = n := by
  intro draws
  induction draws with
  | nil =>
      intro pairs hnd hle hcard
      rw [buildLoop]
      have hc : pairs.toFinset.card = pairs.length := List.toFinset_card_of_nodup hnd
      simp only [List.append_nil] at hcard
      omega
  | cons p draws ih =>
      intro pairs hnd hle hcard
      rw [buildLoop]
      by_cases h1 : n ≤ pairs.length
      · rw [if_pos h1]; omega
      · rw [if_neg h1]
        by_cases h2 : p ∈ pairs
        · rw [if_pos h2]
          refine ih pairs hnd (by omega) ?_
          have hts : (pairs ++ p :: draws).toFinset = (pairs ++ draws).toFinset := by
            rw [List.toFinset_append, List.toFinset_cons, Finset.union_insert,
              Finset.insert_eq_self.mpr (by simp [h2]), ← List.toFinset_append]
          rw [← hts]
          exact hcard
        · rw [if_neg h2]
          refine ih (pairs ++ [p]) ?_ ?_ ?_
          · simp [List.nodup_append, hnd, h2]
          · have : (pairs ++ [p]).length = pairs.length + 1 := by simp
            omega
          · rw [List.append_assoc]
            exact hcard

/-- C9: with a draw stream containing at least `n` distinct pairs,
`build_dataset(n, rng)` returns exactly `n` pairs with no pair appearing
twice; dataset preparation in `main` aborts (failed `assert`, before any
training) whenever the built train and validation sets overlap; and whenever
preparation succeeds, the two returned sets are disjoint. -/
theorem build_dataset_and_disjointness (n : ℕ)
    (draws td vd td2 vd2 : List (ℕ × ℕ)) (r : List (ℕ × ℕ) × List (ℕ × ℕ))
    (hdistinct : n ≤ draws.toFinset.card)
    (hoverlap : pyIsdisjoint (build_dataset 40000 td) (build_dataset 4000 vd) = false)
    (hsome : prepare_datasets td2 vd2 = some r) :
    (build_dataset n draws).length = n ∧ (build_dataset n draws).Nodup ∧
      prepare_datasets td vd = none ∧ pyIsdisjoint r.1 r.2 = true := by
  refine ⟨?_, ?_, ?_, ?_⟩
  · exact buildLoop_length n draws [] List.nodup_nil (by simp) (by simpa using hdistinct)
  · exact buildLoop_nodup n draws [] List.nodup_nil
  · rw [prepare_datasets, hoverlap]
    simp
  · rw [prepare_datasets] at hsome
    split at hsome
    case isTrue h =>
        cases hsome
        simp only [Bool.and_eq_true] at h
        exact h.1.1
    case isFalse h => exact absurd hsome (by simp)

/-- Witness for C9: three draws with two distinct pairs yield a 2-element
duplicate-free dataset; overlapping train/val draw streams make preparation
abort; disjoint ones make it succeed with disjoint sets. -/
theorem build_dataset_and_disjointness_witness :
    2 ≤ ([((0 : ℕ), (0 : ℕ)), (0, 0), (1, 1)] : List (ℕ × ℕ)).toFinset.card ∧
      pyIsdisjoint (build_dataset 40000 [(5, 5)]) (build_dataset 4000 [(5, 5)]) = false ∧
      prepare_datasets [(7, 7)] [(8, 8)] = some ([(7, 7)], [(8, 8)]) ∧
      ((build_dataset 2 [(0, 0), (0, 0), (1, 1)]).length = 2 ∧
        (build_dataset 2 [(0, 0), (0, 0), (1, 1)]).Nodup ∧
        prepare_datasets [(5, 5)] [(5, 5)] = none ∧
        pyIsdisjoint ([(7, 7)], [(8, 8)]).1 ([(7, 7)], [(8, 8)]).2 = true) :=
  ⟨by decide, by decide, by decide,
    build_dataset_and_disjointness 2 [(0, 0), (0, 0), (1, 1)] [(5, 5)] [(5, 5)]
      [(7, 7)] [(8, 8)] ([(7, 7)], [(8, 8)]) (by decide) (by decide) (by decide)⟩

/-! ## Encoded triples and evaluation metrics (`run_search.py`, `encode_example` / `evaluate`) -/

/-- The full triple returned by `encode_example(a, b)` in `run_search.py`:
token `ids`, the training `target` (`target = ids.clone()`), and the float
0/1 supervision `mask` (`mask[eq_idx + 1:] = 1.0`, zero elsewhere, with
`eq_idx = toks.index("=")` the first position holding the id of `"="`,
which is 2). -/
structure Encoded where
  ids : List ℕ
  target : List ℕ
  mask : List ℚ
deriving DecidableEq

/-- `toks.index("=")`: the first position of the `"="` id (2). -/
def eq_idx (ids : List ℕ) : ℕ := ids.indexOf 2

/-- `encode_example(a, b)` with all three returned tensors. -/
def encodeEx (a b : ℕ) : Encoded :=
  { ids := encode_example a b
    target := encode_example a b
    mask := (List.range (encode_example a b).length).map
      (fun i => if eq_idx (encode_example a b) + 1 ≤ i then (1 : ℚ) else 0) }

theorem two_not_mem_map_add (l : List ℕ) : 2 ∉ l.map (fun d => 4 + d) := by
  simp only [List.mem_map, not_exists]
  intro x
  intro hx
  omega

theorem eq_idx_encode (a b : ℕ) : eq_idx (encode_example a b) = 22 := by
  rw [eq_idx, encode_example_eq,
      List.indexOf_cons_ne _ (by norm_num),
      List.indexOf_append_of_not_mem (two_not_mem_map_add _),
      List.indexOf_cons_ne _ (by norm_num),
      List.indexOf_append_of_not_mem (two_not_mem_map_add _),
      List.indexOf_cons_self]
  simp [digitsLE_length]

theorem encode_example_length (a b : ℕ) : (encode_example a b).length = 35 := by
  simp [encode_example, digitsLE_length]

theorem mask_encodeEx (a b : ℕ) :
    (encodeEx a b).mask = (List.range 35).map (fun i => if 23 ≤ i then (1 : ℚ) else 0) := by
  simp [encodeEx, encode_example_length, eq_idx_encode]

/-- `(m > 0).sum()` for one example: the number of supervised positions. -/
def maskedCount (mask : List ℚ) : ℕ := mask.countP (fun x => decide (0 < x))

theorem maskedCount_encodeEx (a b : ℕ) : maskedCount (encodeEx a b).mask = 12 := by
  rw [maskedCount, mask_encodeEx]
  decide

/-- `cmp = (pred == y) & (m > 0)` summed over one example: the number of
positions where the argmax prediction equals the target and the mask is
positive (elementwise tensor ops mirrored by `zip`). -/
def maskedHits (pred : List ℕ) (e : Encoded) : ℕ :=
  ((pred.zip e.target).zip e.mask).countP
    (fun z => decide (z.1.1 = z.1.2) && decide (0 < z.2))

theorem countP_zip_snd_le (p : α → Bool) :
    ∀ (l : List α) (m : List ℚ),
      ((l.zip m).countP fun z => p z.1 && decide (0 < z.2)) ≤
        m.countP (fun x => decide (0 < x)) := by
  intro l
  induction l with
  | nil =>
      intro m
      rw [List.zip_nil_left, List.countP_nil]
      exact Nat.zero_le _
  | cons a l ih =>
      intro m
      cases m with
      | nil =>
          rw [List.zip_nil_right, List.countP_nil]
          exact Nat.zero_le _
      | cons x m =>
          rw [List.zip_cons_cons, List.countP_cons, List.countP_cons]
          dsimp only
          have h := ih m
          have hstep : (if (p a && decide (0 < x)) = true then 1 else 0) ≤
              (if decide (0 < x) = true then 1 else 0) := by
            cases hpa : (p a && decide (0 < x)) with
            | false => simp
            | true =>
                simp only [Bool.and_eq_true] at hpa
                rw [hpa.2]
          omega

theorem maskedHits_le (pred : List ℕ) (e : Encoded) :
    maskedHits pred e ≤ maskedCount e.mask := by
  rw [maskedHits, maskedCount]
  exact countP_zip_snd_le (fun w : ℕ × ℕ => decide (w.1 = w.2)) (pred.zip e.target) e.mask

/-- The count accumulation of `evaluate(model, pairs)` in `run_search.py`:
`(tok_correct, tok_total, seq_correct, seq_total)`.  `predict p` is the argmax
token list `logits.argmax(-1)` produced by the model on the encoded input of
pair `p`; `batchify` only chunks the same accumulation into batches, so the
four totals accumulate per example. -/
def evalCounts (predict : ℕ × ℕ → List ℕ) (pairs : List (ℕ × ℕ)) : ℕ × ℕ × ℕ × ℕ :=
  pairs.foldl
    (fun acc p =>
      (acc.1 + maskedHits (predict p) (encodeEx p.1 p.2),
       acc.2.1 + maskedCount (encodeEx p.1 p.2).mask,
       acc.2.2.1 +
         (if maskedHits (predict p) (encodeEx p.1 p.2) = maskedCount (encodeEx p.1 p.2).mask
          then 1 else 0),
       acc.2.2.2 + 1))
    (0, 0, 0, 0)

/-- `evaluate(model, pairs)` of `run_search.py`: the returned pair
`(tok_correct / tok_total, seq_correct / seq_total)`. -/
def evaluate (predict : ℕ × ℕ → List ℕ) (pairs : List (ℕ × ℕ)) : ℚ × ℚ :=
  ((evalCounts predict pairs).1 / (evalCounts predict pairs).2.1,
   (evalCounts predict pairs).2.2.1 / (evalCounts predict pairs).2.2.2)

theorem evalCounts_foldl (predict : ℕ × ℕ → List ℕ) :
    ∀ (pairs : List (ℕ × ℕ)) (acc : ℕ × ℕ × ℕ × ℕ),
      pairs.foldl
        (fun acc p =>
          (acc.1 + maskedHits (predict p) (encodeEx p.1 p.2),
           acc.2.1 + maskedCount (encodeEx p.1 p.2).mask,
           acc.2.2.1 +
             (if maskedHits (predict p) (encodeEx p.1 p.2) = maskedCount (encodeEx p.1 p.2).mask
              then 1 else 0),
           acc.2.2.2 + 1)) acc =
      (acc.1 + (pairs.map fun p => maskedHits (predict p) (encodeEx p.1 p.2)).sum,
       acc.2.1 + 12 * pairs.length,
       acc.2.2.1 + ((pairs.map fun p => maskedHits (predict p) (encodeEx p.1 p.2)).countP
         fun c => decide (c = 12)),
       acc.2.2.2 + pairs.length) := by
  intro pairs
  induction pairs with
  | nil => intro acc; simp
  | cons p pairs ih =>
      intro acc
      rw [List.foldl_cons, ih]
      dsimp only
      rw [maskedCount_encodeEx, List.map_cons, List.sum_cons, List.length_cons,
        List.countP_cons]
      simp only [Prod.mk.injEq, decide_eq_true_eq]
      refine ⟨by omega, by omega, by omega, by omega⟩

theorem twelve_mul_countP_le_sum (cs : List ℕ) :
    12 * (cs.countP fun c => decide (c = 12)) ≤ cs.sum := by
  induction cs with
  | nil => simp
  | cons c cs ih =>
      rw [List.countP_cons, List.sum_cons]
      simp only [decide_eq_true_eq]
      by_cases hc : c = 12
      · rw [if_pos hc]
        omega
      · rw [if_neg hc]
        omega

/-- C6: for every model (any argmax prediction function) and every nonempty
evaluation set of pairs, the sequence accuracy returned by `evaluate` is at
most the token accuracy it returns: exact match of all 12 masked positions of
an example is a stronger criterion than per-position match. -/
theorem seq_acc_le_tok_acc (predict : ℕ × ℕ → List ℕ) (pairs : List (ℕ × ℕ))
    (h : pairs ≠ []) :
    (evaluate predict pairs).2 ≤ (evaluate predict pairs).1 := by
  have hev := evalCounts_foldl predict pairs (0, 0, 0, 0)
  rw [evaluate, evalCounts, hev]
  dsimp only
  simp only [Nat.zero_add]
  simp only [Nat.cast_mul, Nat.cast_ofNat]
  set S := ((pairs.map fun p => maskedHits (predict p) (encodeEx p.1 p.2)).sum) with hS
  set C := ((pairs.map fun p => maskedHits (predict p) (encodeEx p.1 p.2)).countP
    fun c => decide (c = 12)) with hC
  set N := pairs.length with hN
  have hNpos : 0 < N := List.length_pos.mpr h
  have hle : 12 * C ≤ S := by
    have := twelve_mul_countP_le_sum (pairs.map fun p => maskedHits (predict p) (encodeEx p.1 p.2))
    rw [← hS, ← hC] at this
    exact this
  have hNq : (0 : ℚ) < (N : ℚ) := by exact_mod_cast hNpos
  have h12N : (0 : ℚ) < 12 * (N : ℚ) := by positivity
  rw [div_le_div_iff hNq h12N]
  have hq : (12 : ℚ) * (C : ℚ) ≤ (S : ℚ) := by exact_mod_cast hle
  nlinarith [hq, hNq.le]

/-- Witness for C6: the all-`<bos>` prediction on the single pair (0, 0). -/
theorem seq_acc_le_tok_acc_witness :
    ([((0 : ℕ), (0 : ℕ))] : List (ℕ × ℕ)) ≠ [] ∧
      (evaluate (fun _ => List.replicate 35 0) [(0, 0)]).2 ≤
        (evaluate (fun _ => List.replicate 35 0) [(0, 0)]).1 :=
  ⟨by simp, seq_acc_le_tok_acc (fun _ => List.replicate 35 0) [(0, 0)] (by simp)⟩

/-! ## The model (`run_search.py`, `TinyTransformer.forward`)

Float tensors are embedded as real numbers; a batch row is a function
`Fin n → Fin 14` of token ids (the forward pass handles any sequence length:
the causal mask is built from the score matrix's sizes). -/

/-- The trainable tensors of `TinyTransformer(d_model = d, d_ff = f)`:
`tok_emb` (`Embedding(VOCAB, d)`, `VOCAB = 14`), `ln1`, the `Linear(d, d)`
layers `q`, `k`, `v`, `proj`, `ln2`, `fc1 : Linear(d, f)`,
`fc2 : Linear(f, d)` and `ln_f`.  The output projection is the transposed
embedding (`logits = h @ tok_emb.weight.T`), so it appears once. -/
structure TTParams (d f : ℕ) where
  tok_emb : Fin 14 → Fin d → ℝ
  ln1_w : Fin d → ℝ
  ln1_b : Fin d → ℝ
  q_w : Fin d → Fin d → ℝ
  q_b : Fin d → ℝ
  k_w : Fin d → Fin d → ℝ
  k_b : Fin d → ℝ
  v_w : Fin d → Fin d → ℝ
  v_b : Fin d → ℝ
  proj_w : Fin d → Fin d → ℝ
  proj_b : Fin d → ℝ
  ln2_w : Fin d → ℝ
  ln2_b : Fin d → ℝ
  fc1_w : Fin f → Fin d → ℝ
  fc1_b : Fin f → ℝ
  fc2_w : Fin d → Fin f → ℝ
  fc2_b : Fin d → ℝ
  lnf_w : Fin d → ℝ
  lnf_b : Fin d → ℝ

/-- `nn.Linear`: `x ↦ W x + b`. -/
noncomputable def linearMap (w : Fin m → Fin k → ℝ) (b : Fin m → ℝ)
    (x : Fin k → ℝ) : Fin m → ℝ :=
  fun o => (∑ c, w o c * x c) + b o

/-- `nn.LayerNorm(d)` with learnable weight and bias: biased variance over the
feature dimension and PyTorch's default `eps = 1e-5` inside the square
root. -/
noncomputable def layerNorm (w b : Fin d → ℝ) (x : Fin d → ℝ) : Fin d → ℝ :=
  fun c =>
    (x c - (∑ j, x j) / d) /
        Real.sqrt ((∑ j, (x j - (∑ i, x i) / d) ^ 2) / d + 1 / 100000)
      * w c + b c

/-- `F.gelu` (exact form): `x · Φ(x)` with `Φ` the standard Gaussian
cumulative distribution function. -/
noncomputable def gelu (x : ℝ) : ℝ :=
  x * (ProbabilityTheory.gaussianReal 0 1 (Set.Iic x)).toReal

/-- `h = self.tok_emb(x)` (also the residual `r`). -/
noncomputable def embedTok (P : TTParams d f) (x : Fin n → Fin 14) (p : Fin n) :
    Fin d → ℝ :=
  P.tok_emb (x p)

/-- `q = self.q(self.ln1(h))` at position `p`. -/
noncomputable def qVec (P : TTParams d f) (x : Fin n → Fin 14) (p : Fin n) :
    Fin d → ℝ :=
  linearMap P.q_w P.q_b (layerNorm P.ln1_w P.ln1_b (embedTok P x p))

/-- `k = self.k(self.ln1(h))` at position `p`. -/
noncomputable def kVec (P : TTParams d f) (x : Fin n → Fin 14) (p : Fin n) :
    Fin d → ℝ :=
  linearMap P.k_w P.k_b (layerNorm P.ln1_w P.ln1_b (embedTok P x p))

/-- `v = self.v(self.ln1(h))` at position `p`. -/
noncomputable def vVec (P : TTParams d f) (x : Fin n → Fin 14) (p : Fin n) :
    Fin d → ℝ :=
  linearMap P.v_w P.v_b (layerNorm P.ln1_w P.ln1_b (embedTok P x p))

/-- `att = (q @ k.transpose(-2, -1)) / math.sqrt(q.size(-1))`. -/
noncomputable def attScore (P : TTParams d f) (x : Fin n → Fin 14)
    (p pk : Fin n) : ℝ :=
  (∑ c, qVec P x p c * kVec P x pk c) / Real.sqrt d

/-- The attention weight after
`att.masked_fill(triu(ones, diagonal=1), -inf)` and `F.softmax(att, -1)`:
in real semantics `exp(-inf) = 0`, so a column `pk > p` carries weight 0 and
row `p` normalizes over the unmasked columns `pk ≤ p` (column `p` itself is
always unmasked, so the row sum is positive). -/
noncomputable def attWeight (P : TTParams d f) (x : Fin n → Fin 14)
    (p pk : Fin n) : ℝ :=
  if pk ≤ p then
    Real.exp (attScore P x p pk) /
      ∑ j, (if j ≤ p then Real.exp (attScore P x p j) else 0)
  else 0

/-- `att @ v` at position `p`. -/
noncomputable def attnOut (P : TTParams d f) (x : Fin n → Fin 14) (p : Fin n) :
    Fin d → ℝ :=
  fun c => ∑ pk, attWeight P x p pk * vVec P x pk c

/-- `h = r + self.proj(att @ v)` at position `p`. -/
noncomputable def resid1 (P : TTParams d f) (x : Fin n → Fin 14) (p : Fin n) :
    Fin d → ℝ :=
  fun c => embedTok P x p c + linearMap P.proj_w P.proj_b (attnOut P x p) c

/-- `h = r2 + self.fc2(F.gelu(self.fc1(self.ln2(h))))` at position `p`. -/
noncomputable def ffOut (P : TTParams d f) (x : Fin n → Fin 14) (p : Fin n) :
    Fin d → ℝ :=
  fun c => resid1 P x p c +
    linearMap P.fc2_w P.fc2_b
      (fun j => gelu (linearMap P.fc1_w P.fc1_b (layerNorm P.ln2_w P.ln2_b (resid1 P x p)) j)) c

/-- `TinyTransformer.forward`: the logits row of position `p`,
`logits = self.ln_f(h) @ self.tok_emb.weight.T`. -/
noncomputable def forward (P : TTParams d f) (x : Fin n → Fin 14) (p : Fin n) :
    Fin 14 → ℝ :=
  fun t => ∑ c, layerNorm P.lnf_w P.lnf_b (ffOut P x p) c * P.tok_emb t c

/-- The prefix of a token row up to position `i` (later positions zeroed):
two rows agree at every position `j ≤ i` iff their `restrictLe i`s are
equal. -/
def restrictLe (i : Fin n) (x : Fin n → Fin 14) : Fin n → Fin 14 :=
  fun j => if j ≤ i then x j else 0

theorem restrictLe_agree {i : Fin n} {x y : Fin n → Fin 14}
    (h : restrictLe i x = restrictLe i y) : ∀ j, j ≤ i → x j = y j := by
  intro j hj
  have hx := congrFun h j
  rw [restrictLe, restrictLe] at hx
  rw [if_pos hj, if_pos hj] at hx
  exact hx

theorem forward_determined_by_prefix (P : TTParams d f) (x y : Fin n → Fin 14)
    (i : Fin n) (hxy : ∀ j, j ≤ i → x j = y j) :
    forward P x i = forward P y i := by
  have hemb : ∀ p, p ≤ i → embedTok P x p = embedTok P y p := by
    intro p hp
    rw [embedTok, embedTok, hxy p hp]
  have hq : ∀ p, p ≤ i → qVec P x p = qVec P y p := by
    intro p hp
    rw [qVec, qVec, hemb p hp]
  have hk : ∀ p, p ≤ i → kVec P x p = kVec P y p := by
    intro p hp
    rw [kVec, kVec, hemb p hp]
  have hv : ∀ p, p ≤ i → vVec P x p = vVec P y p := by
    intro p hp
    rw [vVec, vVec, hemb p hp]
  have hscore : ∀ pk, pk ≤ i → attScore P x i pk = attScore P y i pk := by
    intro pk hpk
    rw [attScore, attScore, hq i le_rfl, hk pk hpk]
  have hweight : ∀ pk, attWeight P x i pk = attWeight P y i pk := by
    intro pk
    rw [attWeight, attWeight]
    by_cases hpk : pk ≤ i
    · rw [if_pos hpk, if_pos hpk, hscore pk hpk]
      congr 1
      apply Finset.sum_congr rfl
      intro j _
      by_cases hj : j ≤ i
      · rw [if_pos hj, if_pos hj, hscore j hj]
      · rw [if_neg hj, if_neg hj]
    · rw [if_neg hpk, if_neg hpk]
  have hattn : attnOut P x i = attnOut P y i := by
    funext c
    rw [attnOut, attnOut]
    apply Finset.sum_congr rfl
    intro pk _
    by_cases hpk : pk ≤ i
    · rw [hweight pk, hv pk hpk]
    · have h0x : attWeight P x i pk = 0 := by rw [attWeight, if_neg hpk]
      have h0y : attWeight P y i pk = 0 := by rw [attWeight, if_neg hpk]
      rw [h0x, h0y, zero_mul, zero_mul]
  have hres : resid1 P x i = resid1 P y i := by
    funext c
    rw [resid1, resid1, hemb i le_rfl, hattn]
  have hff : ffOut P x i = ffOut P y i := by
    funext c
    rw [ffOut, ffOut, hres]
  funext t
  rw [forward, forward, hff]

/-- C4: causal masking — for every parameterization, every pair of input
sequences that agree at the positions `≤ i`, the forward pass produces the
same logits row at position `i`; replacing any token at a position `j > i`
leaves the logits at `i` unchanged. -/
theorem causal_masking (d f n : ℕ) (P : TTParams d f) (x y : Fin n → Fin 14)
    (i : Fin n) (h : restrictLe i x = restrictLe i y) :
    forward P x i = forward P y i :=
  forward_determined_by_prefix P x y i (restrictLe_agree h)

/-- All-zero parameters for the witnesses (`d = f = 1`). -/
noncomputable def P0 : TTParams 1 1 :=
  ⟨fun _ _ => 0, fun _ => 0, fun _ => 0, fun _ _ => 0, fun _ => 0, fun _ _ => 0,
   fun _ => 0, fun _ _ => 0, fun _ => 0, fun _ _ => 0, fun _ => 0, fun _ => 0,
   fun _ => 0, fun _ _ => 0, fun _ => 0, fun _ _ => 0, fun _ => 0, fun _ => 0,
   fun _ => 0⟩

/-- Witness input: both tokens `<bos>`. -/
def x0 : Fin 2 → Fin 14 := fun _ => 0

/-- Witness input: token at position 1 (after position 0) replaced by a
digit. -/
def y0 : Fin 2 → Fin 14 := fun j => if j = 0 then 0 else 7

/-- Witness for C4: `x0` and `y0` differ only at position 1 > 0, and the
logits at position 0 coincide. -/
theorem causal_masking_witness :
    restrictLe (0 : Fin 2) x0 = restrictLe 0 y0 ∧
      forward P0 x0 0 = forward P0 y0 0 :=
  ⟨by decide, causal_masking 1 1 2 P0 x0 y0 0 (by decide)⟩

/-! ## The bidirectional model (`tiny_addition_search.py`,
`TinyTransformerBlock.forward` / `TinyAdditionTransformer.forward`)

The block calls `self.attn(h, h, h, need_weights=False)` —
`nn.MultiheadAttention(d_model, num_heads=1, batch_first=True)` with **no**
`attn_mask` — so every position attends to every position.  Embedded over ℝ
like the model above; single-head attention scales scores by `1/√d` (the
per-head dimension is `d` for one head) and the packed `in_proj` is written
as its three query/key/value parts. -/

/-- The trainable tensors of `TinyAdditionTransformer(d_model = d, d_ff = f)`
with one `TinyTransformerBlock`: token and positional embeddings
(`VOCAB_SIZE = 12`, `SEQ_LEN = 32`), `ln1`, the attention `in_proj`
(query/key/value parts `wq`/`wk`/`wv` with biases) and `out_proj`
(`wo`/`bo`), `ln2`, the feed-forward pair `ff1`/`ff2`, `final_ln` and the
10-way digit `head`. -/
structure TAParams (d f : ℕ) where
  token_embed : Fin 12 → Fin d → ℝ
  pos_embed : Fin 32 → Fin d → ℝ
  ln1_w : Fin d → ℝ
  ln1_b : Fin d → ℝ
  wq : Fin d → Fin d → ℝ
  bq : Fin d → ℝ
  wk : Fin d → Fin d → ℝ
  bk : Fin d → ℝ
  wv : Fin d → Fin d → ℝ
  bv : Fin d → ℝ
  wo : Fin d → Fin d → ℝ
  bo : Fin d → ℝ
  ln2_w : Fin d → ℝ
  ln2_b : Fin d → ℝ
  ff1_w : Fin f → Fin d → ℝ
  ff1_b : Fin f → ℝ
  ff2_w : Fin d → Fin f → ℝ
  ff2_b : Fin d → ℝ
  fln_w : Fin d → ℝ
  fln_b : Fin d → ℝ
  head_w : Fin 10 → Fin d → ℝ
  head_b : Fin 10 → ℝ

/-- `F.relu`. -/
noncomputable def relu (x : ℝ) : ℝ := max x 0

/-- `h = self.token_embed(x) + self.pos_embed(pos)`
(`TinyAdditionTransformer.forward`). -/
noncomputable def taEmbed (P : TAParams d f) (x : Fin 32 → Fin 12) (p : Fin 32) :
    Fin d → ℝ :=
  fun c => P.token_embed (x p) c + P.pos_embed p c

/-- `h = self.ln1(x)` inside `TinyTransformerBlock.forward`. -/
noncomputable def taLn1 (P : TAParams d f) (x : Fin 32 → Fin 12) (p : Fin 32) :
    Fin d → ℝ :=
  layerNorm P.ln1_w P.ln1_b (taEmbed P x p)

/-- The single-head attention scores `(q·k)/√d` of `nn.MultiheadAttention`
(no `attn_mask`: no position is masked out). -/
noncomputable def taScore (P : TAParams d f) (x : Fin 32 → Fin 12)
    (p pk : Fin 32) : ℝ :=
  (∑ c, linearMap P.wq P.bq (taLn1 P x p) c * linearMap P.wk P.bk (taLn1 P x pk) c) /
    Real.sqrt d

/-- The softmax attention weights, over **all** 32 key positions
(bidirectional: keys at positions after the query contribute). -/
noncomputable def taWeight (P : TAParams d f) (x : Fin 32 → Fin 12)
    (p pk : Fin 32) : ℝ :=
  Real.exp (taScore P x p pk) / ∑ j, Real.exp (taScore P x p j)

/-- `attn_out, _ = self.attn(h, h, h)` followed by `x = x + attn_out`. -/
noncomputable def taAfterAttn (P : TAParams d f) (x : Fin 32 → Fin 12)
    (p : Fin 32) : Fin d → ℝ :=
  fun c => taEmbed P x p c +
    linearMap P.wo P.bo
      (fun c2 => ∑ pk, taWeight P x p pk * linearMap P.wv P.bv (taLn1 P x pk) c2) c

/-- `x = x + self.ff2(F.relu(self.ff1(self.ln2(x))))`: the block output. -/
noncomputable def taBlockOut (P : TAParams d f) (x : Fin 32 → Fin 12)
    (p : Fin 32) : Fin d → ℝ :=
  fun c => taAfterAttn P x p c +
    linearMap P.ff2_w P.ff2_b
      (fun j => relu (linearMap P.ff1_w P.ff1_b
        (layerNorm P.ln2_w P.ln2_b (taAfterAttn P x p)) j)) c

/-- `TinyAdditionTransformer.forward` with one block:
`h = self.final_ln(h[:, :OUT_LEN])` (`OUT_LEN = 11`) then
`return self.head(h)` — the logits row of output position `p`. -/
noncomputable def taForward (P : TAParams d f) (x : Fin 32 → Fin 12)
    (p : Fin 11) : Fin 10 → ℝ :=
  fun o => linearMap P.head_w P.head_b
    (layerNorm P.fln_w P.fln_b (taBlockOut P x (Fin.castLE (by norm_num) p))) o

/-- Concrete parameters for the C4 counterexample (`d = 2`, `f = 1`): the
token embedding separates digit token 1 from the rest on channel 0, the query
projection is zero (so the softmax is uniform), value and output projections
copy channel 0, and the feed-forward branch is zeroed. -/
noncomputable def MP : TAParams 2 1 where
  token_embed := fun t c => if t = 1 ∧ c = 0 then 1 else 0
  pos_embed := fun _ _ => 0
  ln1_w := fun c => if c = 0 then 1 else 0
  ln1_b := fun _ => 0
  wq := fun _ _ => 0
  bq := fun _ => 0
  wk := fun _ _ => 0
  bk := fun _ => 0
  wv := fun r c => if r = 0 ∧ c = 0 then 1 else 0
  bv := fun _ => 0
  wo := fun r c => if r = 0 ∧ c = 0 then 1 else 0
  bo := fun _ => 0
  ln2_w := fun _ => 0
  ln2_b := fun _ => 0
  ff1_w := fun _ _ => 0
  ff1_b := fun _ => 0
  ff2_w := fun _ _ => 0
  ff2_b := fun _ => 0
  fln_w := fun c => if c = 0 then 1 else 0
  fln_b := fun _ => 0
  head_w := fun o c => if o = 0 ∧ c = 0 then 1 else 0
  head_b := fun _ => 0

/-- The `make_batch` input for the operand pair (0, 0): `OUT_TOKEN` (= 10) at
positions 0–10, the digits of a and b (all 0) at 11–20 and 22–31,
`PLUS_TOKEN` (= 11) at 21. -/
def xTA : Fin 32 → Fin 12 :=
  fun j => if j.1 ≤ 10 then 10 else if j.1 = 21 then 11 else 0

/-- The `make_batch` input for the operand pair (1, 0): as `xTA` but with
digit 1 at position 11 (the least-significant digit of a). -/
def yTA : Fin 32 → Fin 12 :=
  fun j => if j.1 = 11 then 1 else xTA j

/-- The prefix restriction for 12-token rows (later positions zeroed). -/
def restrictLe12 (i : Fin 32) (x : Fin 32 → Fin 12) : Fin 32 → Fin 12 :=
  fun j => if j ≤ i then x j else 0

/-- Position 11 (where `xTA` and `yTA` differ). -/
def p11 : Fin 32 := ⟨11, by norm_num⟩

theorem linearMap_zero_w (k m : ℕ) (v : Fin k → ℝ) :
    linearMap (fun _ _ => (0 : ℝ)) (fun _ => 0) v = fun _ : Fin m => 0 := by
  funext o
  rw [linearMap]
  simp

theorem linearMap_zero_v (k m : ℕ) (w : Fin m → Fin k → ℝ) :
    linearMap w (fun _ => 0) (fun _ : Fin k => 0) = fun _ : Fin m => 0 := by
  funext o
  rw [linearMap]
  simp

theorem layerNorm_zero (d : ℕ) (w : Fin d → ℝ) :
    layerNorm w (fun _ => 0) (fun _ => 0) = fun _ => 0 := by
  funext c
  rw [layerNorm]
  simp

theorem layerNorm_unit0 (s : ℝ) :
    layerNorm (fun c : Fin 2 => if c = 0 then 1 else 0) (fun _ => 0)
        (fun c : Fin 2 => if c = 0 then s else 0) =
      fun c : Fin 2 => if c = 0 then s / 2 / Real.sqrt (s ^ 2 / 4 + 1 / 100000) else 0 := by
  funext c
  rw [layerNorm]
  fin_cases c
  · norm_num [Fin.sum_univ_two]
    rw [show s - s / 2 = s / 2 by ring,
      show ((s / 2) ^ 2 + (s / 2) ^ 2) / 2 + 1 / 100000 = s ^ 2 / 4 + 1 / 100000 by ring]
  · norm_num [Fin.sum_univ_two]

theorem linearMap_copy0 (m : ℕ) [NeZero m] (s : ℝ) :
    linearMap (fun (r : Fin m) (c : Fin 2) => if r = 0 ∧ c = 0 then (1 : ℝ) else 0)
        (fun _ => 0) (fun c : Fin 2 => if c = 0 then s else 0) =
      fun r : Fin m => if r = 0 then s else 0 := by
  funext r
  rw [linearMap, Fin.sum_univ_two]
  by_cases hr : r = 0 <;> simp [hr]

theorem taEmbed_xTA (p : Fin 32) : taEmbed MP xTA p = fun _ => 0 := by
  funext c
  rw [taEmbed]
  simp only [MP]
  have h1 : xTA p ≠ 1 := by
    rw [xTA]
    split_ifs <;> decide
  simp [h1]

theorem taEmbed_yTA_ne (p : Fin 32) (hp : p ≠ p11) : taEmbed MP yTA p = fun _ => 0 := by
  funext c
  rw [taEmbed]
  simp only [MP]
  have h1 : yTA p ≠ 1 := by
    have hv : p.1 ≠ 11 := fun h => hp (Fin.ext h)
    rw [yTA, if_neg hv, xTA]
    split_ifs <;> decide
  simp [h1]

theorem taEmbed_yTA_11 : taEmbed MP yTA p11 = fun c => if c = 0 then 1 else 0 := by
  funext c
  rw [taEmbed]
  simp only [MP]
  have h1 : yTA p11 = 1 := by rw [yTA]; norm_num [p11]
  rw [h1]
  simp

theorem taLn1_xTA (p : Fin 32) : taLn1 MP xTA p = fun _ => 0 := by
  rw [taLn1, taEmbed_xTA]
  have hb : MP.ln1_b = fun _ : Fin 2 => (0 : ℝ) := rfl
  rw [hb, layerNorm_zero]

theorem taLn1_yTA_ne (p : Fin 32) (hp : p ≠ p11) : taLn1 MP yTA p = fun _ => 0 := by
  rw [taLn1, taEmbed_yTA_ne p hp]
  have hb : MP.ln1_b = fun _ : Fin 2 => (0 : ℝ) := rfl
  rw [hb, layerNorm_zero]

/-- The channel-0 value that `ln1` produces at the position holding token 1. -/
noncomputable def kLn : ℝ := 1 / 2 / Real.sqrt (1 / 4 + 1 / 100000)

theorem taLn1_yTA_11 : taLn1 MP yTA p11 = fun c : Fin 2 => if c = 0 then kLn else 0 := by
  rw [taLn1, taEmbed_yTA_11]
  have hw : MP.ln1_w = fun c : Fin 2 => if c = 0 then (1 : ℝ) else 0 := rfl
  have hb : MP.ln1_b = fun _ : Fin 2 => (0 : ℝ) := rfl
  rw [hw, hb, layerNorm_unit0]
  funext c
  rw [kLn]
  norm_num

theorem taScore_MP (x : Fin 32 → Fin 12) (p pk : Fin 32) : taScore MP x p pk = 0 := by
  rw [taScore]
  have hw : MP.wq = fun _ _ : Fin 2 => (0 : ℝ) := rfl
  have hb : MP.bq = fun _ : Fin 2 => (0 : ℝ) := rfl
  rw [hw, hb, linearMap_zero_w]
  simp

theorem taWeight_MP (x : Fin 32 → Fin 12) (p pk : Fin 32) : taWeight MP x p pk = 1 / 32 := by
  rw [taWeight]
  simp only [taScore_MP]
  rw [Real.exp_zero, Finset.sum_const, Finset.card_univ]
  simp

theorem taV_xTA (pk : Fin 32) :
    linearMap MP.wv MP.bv (taLn1 MP xTA pk) = fun _ : Fin 2 => 0 := by
  rw [taLn1_xTA]
  have hb : MP.bv = fun _ : Fin 2 => (0 : ℝ) := rfl
  rw [hb, linearMap_zero_v]

theorem taV_yTA (pk : Fin 32) :
    linearMap MP.wv MP.bv (taLn1 MP yTA pk) =
      fun r : Fin 2 => if r = 0 ∧ pk = p11 then kLn else 0 := by
  have hw : MP.wv = fun r c : Fin 2 => if r = 0 ∧ c = 0 then (1 : ℝ) else 0 := rfl
  have hb : MP.bv = fun _ : Fin 2 => (0 : ℝ) := rfl
  by_cases hpk : pk = p11
  · rw [hpk, taLn1_yTA_11, hw, hb, linearMap_copy0]
    funext r
    simp
  · rw [taLn1_yTA_ne pk hpk, hb, linearMap_zero_v]
    funext r
    simp [hpk]

theorem taAfterAttn_xTA (p : Fin 32) : taAfterAttn MP xTA p = fun _ => 0 := by
  have hsum : (fun c2 : Fin 2 =>
      ∑ pk, taWeight MP xTA p pk * linearMap MP.wv MP.bv (taLn1 MP xTA pk) c2)
      = fun _ : Fin 2 => 0 := by
    funext c2
    simp only [taV_xTA]
    simp
  funext c
  simp only [taAfterAttn, taEmbed_xTA, hsum]
  have hb : MP.bo = fun _ : Fin 2 => (0 : ℝ) := rfl
  rw [hb, linearMap_zero_v]
  simp

theorem taAfterAttn_yTA (p : Fin 32) (hp : p ≠ p11) :
    taAfterAttn MP yTA p = fun c : Fin 2 => if c = 0 then kLn / 32 else 0 := by
  have hsum : (fun c2 : Fin 2 =>
      ∑ pk, taWeight MP yTA p pk * linearMap MP.wv MP.bv (taLn1 MP yTA pk) c2)
      = fun c2 : Fin 2 => if c2 = 0 then kLn / 32 else 0 := by
    funext c2
    simp only [taV_yTA, taWeight_MP]
    by_cases hc : c2 = 0
    · simp only [hc, true_and, mul_ite, mul_zero]
      rw [Finset.sum_ite_eq' Finset.univ p11 (fun _ => 1 / 32 * kLn)]
      simp
      ring
    · simp [hc]
  funext c
  simp only [taAfterAttn, taEmbed_yTA_ne p hp, hsum]
  have hw : MP.wo = fun r c : Fin 2 => if r = 0 ∧ c = 0 then (1 : ℝ) else 0 := rfl
  have hb : MP.bo = fun _ : Fin 2 => (0 : ℝ) := rfl
  rw [hw, hb, linearMap_copy0]
  simp

theorem taBlockOut_MP (x : Fin 32 → Fin 12) (p : Fin 32) :
    taBlockOut MP x p = taAfterAttn MP x p := by
  funext c
  have hw : MP.ff2_w = fun (_ : Fin 2) (_ : Fin 1) => (0 : ℝ) := rfl
  have hb : MP.ff2_b = fun _ : Fin 2 => (0 : ℝ) := rfl
  simp only [taBlockOut]
  rw [hw, hb, linearMap_zero_w]
  simp

theorem taForward_xTA : taForward MP xTA 0 = fun _ => 0 := by
  funext o
  simp only [taForward, taBlockOut_MP, taAfterAttn_xTA]
  have hfb : MP.fln_b = fun _ : Fin 2 => (0 : ℝ) := rfl
  rw [hfb, layerNorm_zero]
  have hhb : MP.head_b = fun _ : Fin 10 => (0 : ℝ) := rfl
  rw [hhb, linearMap_zero_v]

/-- The logit that `yTA` produces at output position 0, digit 0. -/
noncomputable def tauLog : ℝ :=
  kLn / 32 / 2 / Real.sqrt ((kLn / 32) ^ 2 / 4 + 1 / 100000)

theorem taForward_yTA : taForward MP yTA 0 = fun o : Fin 10 => if o = 0 then tauLog else 0 := by
  funext o
  simp only [taForward, taBlockOut_MP]
  rw [taAfterAttn_yTA _ (by decide)]
  have hfw : MP.fln_w = fun c : Fin 2 => if c = 0 then (1 : ℝ) else 0 := rfl
  have hfb : MP.fln_b = fun _ : Fin 2 => (0 : ℝ) := rfl
  rw [hfw, hfb, layerNorm_unit0]
  have hhw : MP.head_w = fun (r : Fin 10) (c : Fin 2) =>
      if r = 0 ∧ c = 0 then (1 : ℝ) else 0 := rfl
  have hhb : MP.head_b = fun _ : Fin 10 => (0 : ℝ) := rfl
  rw [hhw, hhb, linearMap_copy0, tauLog]

theorem tauLog_pos : 0 < tauLog := by
  rw [tauLog, kLn]
  positivity

/-- C4 counterexample: the cited `TinyTransformerBlock.forward` of
`tiny_addition_search.py` applies `nn.MultiheadAttention` with no
`attn_mask`, so attention is bidirectional and the claimed causal-masking
property fails for that model: with the concrete parameters `MP`, the
`make_batch` inputs for the pairs (0, 0) and (1, 0) agree at every position
`j ≤ 10` (they differ only at position 11, the least-significant digit of
`a`), yet the logits at output position 0 differ. -/
theorem mha_attention_not_causal :
    restrictLe12 ⟨10, by norm_num⟩ xTA = restrictLe12 ⟨10, by norm_num⟩ yTA ∧
      taForward MP xTA 0 ≠ taForward MP yTA 0 := by
  refine ⟨by decide, ?_⟩
  intro h
  have h0 := congrFun h 0
  rw [taForward_xTA, taForward_yTA] at h0
  simp at h0
  have hp := tauLog_pos
  rw [← h0] at hp
  exact lt_irrefl 0 hp

/-! ## Masked cross-entropy loss (`run_search.py`, `train_attempt` lines 152–155) -/

/-- `F.cross_entropy(logits, y, reduction="none")` at one position:
`-log softmax(logits)[y]`. -/
noncomputable def cross_entropy (logits : Fin V → ℝ) (y : Fin V) : ℝ :=
  -Real.log (Real.exp (logits y) / ∑ t, Real.exp (logits t))

/-- The training loss of `train_attempt`:
`loss = F.cross_entropy(logits.view(-1, VOCAB), y.view(-1), reduction="none")`
then `loss = (loss * m.view(-1)).sum() / m.sum()` — the masked mean over all
positions (flattening over the batch only concatenates positions, so one
example row of `n` positions captures the general shape). -/
noncomputable def masked_ce_loss (logits : Fin n → Fin V → ℝ)
    (y : Fin n → Fin V) (m : Fin n → ℝ) : ℝ :=
  (∑ i, cross_entropy (logits i) (y i) * m i) / ∑ i, m i

/-- The restriction of a logit tensor to the masked positions: rows whose
mask entry is 0 are zeroed.  Two logit tensors agree at every masked position
iff their `maskSelect`s are equal. -/
noncomputable def maskSelect (m : Fin n → ℝ) (l : Fin n → Fin V → ℝ) :
    Fin n → Fin V → ℝ :=
  fun i => if m i = 0 then 0 else l i

/-- C5: the masked cross-entropy loss is invariant to logits at non-masked
positions — two logit tensors that agree at every position with a nonzero
mask entry produce the same loss for the same targets and mask, so positions
outside the result region never contribute to the loss value. -/
theorem masked_loss_invariant (n V : ℕ) (l1 l2 : Fin n → Fin V → ℝ)
    (y : Fin n → Fin V) (m : Fin n → ℝ)
    (h : maskSelect m l1 = maskSelect m l2) :
    masked_ce_loss l1 y m = masked_ce_loss l2 y m := by
  rw [masked_ce_loss, masked_ce_loss]
  congr 1
  apply Finset.sum_congr rfl
  intro i _
  by_cases hm : m i = 0
  · rw [hm, mul_zero, mul_zero]
  · have hi := congrFun h i
    rw [maskSelect, maskSelect] at hi
    rw [if_neg hm, if_neg hm] at hi
    rw [hi]

/-- Witness mask: position 0 masked, position 1 not. -/
noncomputable def m0 : Fin 2 → ℝ := fun j => if j = 0 then 1 else 0

/-- Witness logits, version 1. -/
noncomputable def l1w : Fin 2 → Fin 1 → ℝ := fun _ _ => 0

/-- Witness logits, version 2: changed only at the unmasked position 1. -/
noncomputable def l2w : Fin 2 → Fin 1 → ℝ := fun j _ => if j = 0 then 0 else 5

/-- Witness target row. -/
def yw : Fin 2 → Fin 1 := fun _ => 0

/-- Witness for C5: `l1w` and `l2w` agree at the masked position 0 and differ
at the unmasked position 1, and the loss is unchanged. -/
theorem masked_loss_invariant_witness :
    maskSelect m0 l1w = maskSelect m0 l2w ∧
      masked_ce_loss l1w yw m0 = masked_ce_loss l2w yw m0 :=
  ⟨by
    funext j
    fin_cases j
    · funext t
      simp [maskSelect, m0, l1w, l2w]
    · simp [maskSelect, m0, l1w, l2w],
   masked_loss_invariant 2 1 l1w l2w yw m0 (by
    funext j
    fin_cases j
    · funext t
      simp [maskSelect, m0, l1w, l2w]
    · simp [maskSelect, m0, l1w, l2w])⟩

/-! ## Same-position supervision (`run_search.py`, `encode_example` /
`train_attempt` / `evaluate`) -/

/-- C10: in `run_search.py` the supervision target at each position is the
input token at that same position — `encode_example` returns
`target = ids.clone()` with no one-position shift, and the trainer's masked
loss and the evaluator's `pred == y` comparison read target and prediction at
equal indices (`masked_ce_loss` pairs `logits i` with `y i`; `maskedHits`
zips position-aligned lists).  Consequently, at every masked position `i` the
compared logit is computed from the prefix of tokens at positions `≤ i`
(second conjunct), a prefix that already contains the position-`i` input
token, i.e. the target itself. -/
theorem target_is_same_position_input (a b : ℕ) (d f n : ℕ) (P : TTParams d f)
    (x y : Fin n → Fin 14) (i : Fin n) (h : restrictLe i x = restrictLe i y) :
    (encodeEx a b).target = (encodeEx a b).ids ∧ forward P x i = forward P y i :=
  ⟨rfl, forward_determined_by_prefix P x y i (restrictLe_agree h)⟩

/-- Witness for C10 at the pair (1, 2) and the concrete C4 witness inputs. -/
theorem target_is_same_position_input_witness :
    restrictLe (0 : Fin 2) x0 = restrictLe 0 y0 ∧
      ((encodeEx 1 2).target = (encodeEx 1 2).ids ∧ forward P0 x0 0 = forward P0 y0 0) :=
  ⟨by decide, target_is_same_position_input 1 2 1 1 2 P0 x0 y0 0 (by decide)⟩

end TinyAddition
